import Mathlib

/-!
The libextism installer (`lib.go`): release resolution and archive installation

A shallow embedding of `getReleases`, `findRelease`, `assetPrefix` and
`runLibInstall`, followed by the properties established about them.

Conventions of the embedding.

* A Go `string` is a byte sequence.  It is represented by a Lean `String`,
  every `Char` standing for one byte; the string primitives below work on the
  underlying list, exactly as the Go ones work on bytes.
* A Go function returning `(T, error)` returns `Except Fault T`.  `Fault`
  separates the errors made with `errors.New` in `lib.go`, the error values
  handed back by library calls and passed through, and run-time panics.
* Everything outside the process (the release catalog, the HTTP download, the
  gzip/tar stream and the filesystem) is an explicit argument.
-/

namespace Cli

/-! ## Go string primitives -/

/-- Go `strings.HasPrefix(s, pre)`. -/
def hasPrefix (s pre : String) : Bool := pre.data.isPrefixOf s.data

/-- Go `strings.HasSuffix(s, suf)`. -/
def hasSuffix (s suf : String) : Bool := suf.data.isSuffixOf s.data

/-- Does `sub` occur in the byte list at some position. -/
def containsFrom (sub : List Char) : List Char → Bool
  | [] => sub.isPrefixOf []
  | c :: cs => sub.isPrefixOf (c :: cs) || containsFrom sub cs

/-- Go `strings.Contains(s, sub)`. -/
def contains (s sub : String) : Bool := containsFrom sub.data s.data

/-- Go `strings.Trim(s, " ")`: leading and trailing spaces removed. -/
def trimSpaces (s : String) : String :=
  ⟨((s.data.dropWhile (fun c => c == ' ')).reverse.dropWhile (fun c => c == ' ')).reverse⟩

/-- The segments of a byte list around every occurrence of the byte `sep`. -/
def splitBytes (sep : Char) : List Char → List (List Char)
  | [] => [[]]
  | c :: cs =>
    if c = sep then [] :: splitBytes sep cs
    else
      match splitBytes sep cs with
      | [] => [[c]]
      | seg :: segs => (c :: seg) :: segs

/-- Go `strings.Split(s, "-")`. -/
def splitDash (s : String) : List String := (splitBytes '-' s.data).map String.mk

/-- Left-to-right, non-overlapping replacement of `old` by `new`; `skip` is
the number of bytes of a match still to be stepped over. -/
def replaceFrom (old new : List Char) : Nat → List Char → List Char
  | _, [] => []
  | skip + 1, _ :: cs => replaceFrom old new skip cs
  | 0, c :: cs =>
    if old.isPrefixOf (c :: cs) then new ++ replaceFrom old new (old.length - 1) cs
    else c :: replaceFrom old new 0 cs

/-- Go `strings.ReplaceAll(s, old, new)` for a non-empty `old` (both calls in
`lib.go` pass a non-empty literal). -/
def replaceAll (s old new : String) : String := ⟨replaceFrom old.data new.data 0 s.data⟩

/-- Number of positions of the byte list at which `sub` occurs. -/
def countFrom (sub : List Char) : List Char → Nat
  | [] => if sub.isPrefixOf [] then 1 else 0
  | c :: cs => (if sub.isPrefixOf (c :: cs) then 1 else 0) + countFrom sub cs

/-- Number of occurrences of `sub` in `s`. -/
def occurrences (s sub : String) : Nat := countFrom sub.data s.data

/-! ## Outcomes -/

/-- How a call can fail. -/
inductive Fault where
  /-- An error made by `errors.New(msg)` in `lib.go`. -/
  | err (msg : String)
  /-- An error value returned by a library call and passed through. -/
  | ext (msg : String)
  /-- A run-time panic. -/
  | panic (msg : String)
  deriving DecidableEq, Repr

deriving instance DecidableEq for Except

/-! ## Data model -/

/-- A `github.ReleaseAsset`, reduced to the fields `lib.go` reads. -/
structure Asset where
  name : String
  browserDownloadURL : String
  deriving DecidableEq, Repr

/-- A `github.RepositoryRelease`, reduced to the fields `lib.go` reads;
`createdAt` is the instant of `CreatedAt`. -/
structure Release where
  tagName : String
  createdAt : Int
  assets : List Asset
  deriving DecidableEq, Repr

/-! ## `getReleases` -/

/-- The `less` closure handed to `sort.Slice`:
`releases[i].CreatedAt.After(releases[j].CreatedAt.Time)`. -/
def createdAfter (a b : Release) : Bool := decide (b.createdAt < a.createdAt)

/-- One pass of the inner loop of insertion sort: `x` moves towards the front
past every element it is `less` than.  The sorted part is held back to front. -/
def sinkInto (less : Release → Release → Bool) (x : Release) : List Release → List Release
  | [] => [x]
  | y :: ys => if less x y then y :: sinkInto less x ys else x :: y :: ys

/-- Insertion sort over the elements still to be placed; `done` is the sorted
part, back to front. -/
def sortInto (less : Release → Release → Bool) : List Release → List Release → List Release
  | done, [] => done.reverse
  | done, x :: xs => sortInto less (sinkInto less x done) xs

/-- Go `sort.Slice(releases, less)`.  The library promises a sorted permutation
and no stability.  The embedding is the insertion sort the library runs on
slices of at most 12 elements, and is exact there.  On a longer slice the
library sorts by another method: its result is again a sorted permutation,
equal to this one when the creation instants are pairwise distinct, and
possibly different in the order of releases created at the same instant. -/
def sortSlice (less : Release → Release → Bool) (releases : List Release) : List Release :=
  sortInto less [] releases

/-- The function `getReleases`; `fetched` is what `client.Repositories.ListReleases` returned. -/
def getReleases (fetched : Except String (List Release)) : Except Fault (List Release) :=
  match fetched with
  | .error e => .error (.ext e)
  | .ok releases => .ok (sortSlice createdAfter releases)

/-! ## `findRelease` -/

/-- The loop `for _, rel := range releases` of `findRelease`. -/
def findTagged (tag : String) : List Release → Except Fault Release
  | [] => .error (.err ("unable to find release " ++ tag))
  | rel :: rest => if hasPrefix rel.tagName tag then .ok rel else findTagged tag rest

/-- The function `findRelease`; an index outside the slice is a run-time panic. -/
def findRelease (fetched : Except String (List Release)) (tag : String) : Except Fault Release :=
  match getReleases fetched with
  | .error e => .error e
  | .ok releases =>
    if tag = "" then
      match releases[0]? with
      | none => .error (.panic "index out of range [0] with length 0")
      | some rel =>
        if rel.tagName = "latest" then
          match releases[1]? with
          | none => .error (.panic "index out of range [1] with length 1")
          | some next => .ok next
        else .ok rel
    else findTagged tag releases

/-! ## `assetPrefix` -/

/-- The function `assetPrefix`. -/
def assetPrefix (os arch libc : String) : Except Fault String :=
  let s := "libextism-"
  let s := if arch = "amd64" then s ++ "x86_64"
    else if arch = "arm64" then s ++ "aarch64"
    else s ++ arch
  if os = "linux" then
    let libc := if libc = "" then "gnu" else libc
    .ok (s ++ "-unknown-linux-" ++ libc)
  else if os = "windows" then
    let libc := if libc = "" then "msvc" else libc
    .ok (s ++ "-pc-windows-" ++ libc)
  else if (os = "darwin" ∨ os = "macos") ∧ libc = "" then
    .ok (s ++ "-apple-darwin")
  else
    .error (.err ("unsupported " ++ arch ++ "-" ++ os ++ "-" ++ libc))

/-- The reference of the specification for `assetPrefix`: the architecture
name `A`, then one case per operating system, the libc defaulting to `gnu`
on linux and to `msvc` on windows. -/
def assetPrefixSpec (os arch libc : String) : Except Fault String :=
  let A := match arch with
    | "amd64" => "x86_64"
    | "arm64" => "aarch64"
    | other => other
  match os, libc with
  | "linux", "" => .ok ("libextism-" ++ A ++ "-unknown-linux-" ++ "gnu")
  | "linux", L => .ok ("libextism-" ++ A ++ "-unknown-linux-" ++ L)
  | "windows", "" => .ok ("libextism-" ++ A ++ "-pc-windows-" ++ "msvc")
  | "windows", L => .ok ("libextism-" ++ A ++ "-pc-windows-" ++ L)
  | "darwin", "" => .ok ("libextism-" ++ A ++ "-apple-darwin")
  | "macos", "" => .ok ("libextism-" ++ A ++ "-apple-darwin")
  | _, _ => .error (.err ("unsupported " ++ arch ++ "-" ++ os ++ "-" ++ libc))

/-! ## `runLibInstall` -/

/-- The struct `libArgs`; `pfx` is the field `prefix`. -/
structure libArgs where
  args : List String
  pfx : String
  libDir : String
  includeDir : String
  deriving DecidableEq, Repr

/-- The struct `libInstallArgs`. -/
structure libInstallArgs extends libArgs where
  version : String
  os : String
  arch : String
  libc : String
  triplet : String
  deriving DecidableEq, Repr

/-- One member of the tar stream: the header name and the bytes of the body;
`readErr` is the error of the read that follows the last byte when that read
does not report `io.EOF`. -/
structure ArchiveEntry where
  name : String
  content : String
  readErr : Option String
  deriving DecidableEq, Repr

/-- What `tarReader.Next()` delivers call after call: the entries, then
`io.EOF` (`nextErr = none`) or another error. -/
structure Archive where
  entries : List ArchiveEntry
  nextErr : Option String
  deriving DecidableEq, Repr

/-- The filesystem calls of `runLibInstall` over a state `σ`.  `mkdirAll` and
`create` may fail; the results of `io.Copy`, `io.WriteString` and `Close`
are not looked at by `lib.go`. -/
structure FileSystem (σ : Type) where
  /-- The call `os.MkdirAll(path, 0o755)`. -/
  mkdirAll : String → σ → σ × Option String
  /-- The call `os.Create(path)`. -/
  create : String → σ → σ × Option String
  /-- Bytes written to the file created at `path`. -/
  write : String → String → σ → σ
  /-- The call `out.Close()` for the file created at `path`. -/
  close : String → σ → σ

/-- Everything `runLibInstall` reaches outside `lib.go`. -/
structure Env (σ : Type) where
  fs : FileSystem σ
  /-- The function `filepath.Join`. -/
  join : List String → String
  /-- The call `http.Get(url)`: the response body. -/
  httpGet : String → Except String String
  /-- The reader `gzip.NewReader` on the body, read through `tar.NewReader`. -/
  gzipNewReader : String → Except String Archive
  /-- The function `getSharedObjectExt`, declared in another file of the package. -/
  getSharedObjectExt : String → String
  /-- The function `getStaticLibFileName`, declared in another file of the package. -/
  getStaticLibFileName : String → String

/-- The start of `runLibInstall`: the version `git` becomes `latest`. -/
def convertVersion (installArgs : libInstallArgs) : libInstallArgs :=
  if installArgs.version = "git" then { installArgs with version := "latest" } else installArgs

/-- The triplet handling of `runLibInstall`. -/
def applyTriplet (installArgs : libInstallArgs) : Except Fault libInstallArgs :=
  if installArgs.triplet ≠ "" then
    let parts := splitDash installArgs.triplet
    if 3 ≤ parts.length ∧ parts.length ≤ 4 then
      let installArgs :=
        { installArgs with arch := parts.getD 0 "", os := parts.getD 2 "", libc := "" }
      if parts.length = 4 then .ok { installArgs with libc := parts.getD 3 "" }
      else .ok installArgs
    else .error (.err "triplet should only have 3 or 4 parts")
  else .ok installArgs

/-- The lines `r.ReadString('\n')` returns with a nil error, in order; `cur`
holds the bytes of the line being read.  The call that meets the end of the
input returns the bytes left over together with an error. -/
def readLines : List Char → List Char → List (List Char)
  | _, [] => []
  | cur, c :: cs =>
    if c = '\n' then (cur ++ [c]) :: readLines [] cs else readLines (cur ++ [c]) cs

/-- The body of the rewrite loop: what becomes of one line before it is written. -/
def rewriteLine (installArgs : libInstallArgs) (line : String) : String :=
  let line := if hasPrefix line "prefix=" then "prefix=" ++ installArgs.pfx ++ "\n" else line
  if installArgs.os = "darwin" ∧ hasPrefix line "Libs:" then
    replaceAll line "Libs: " "Libs: -framework Security "
  else line

/-- The successive arguments of `io.WriteString(out, line)` while the
template `content` is copied. -/
def pcLines (installArgs : libInstallArgs) (content : String) : List String :=
  (readLines [] content.data).map (fun line => rewriteLine installArgs ⟨line⟩)

/-- The content written to the `.pc` file: the written lines one after another. -/
def pcWritten (installArgs : libInstallArgs) (content : String) : String :=
  String.join (pcLines installArgs content)

/-- Each line is written in turn to the file created at `path`. -/
def writeLines {σ : Type} (fs : FileSystem σ) (path : String) : List String → σ → σ
  | [], s => s
  | line :: rest, s => writeLines fs path rest (fs.write path line s)

/-- The three copying branches: the directory is made, the file created, the
body copied and the file closed. -/
def copyEntry {σ : Type} (env : Env σ) (dir name : String) (item : ArchiveEntry) (s : σ) :
    σ × Option Fault :=
  match env.fs.mkdirAll dir s with
  | (s, some e) => (s, some (.ext e))
  | (s, none) =>
    match env.fs.create (env.join [dir, name]) s with
    | (s, some e) => (s, some (.ext e))
    | (s, none) =>
      (env.fs.close (env.join [dir, name]) (env.fs.write (env.join [dir, name]) item.content s), none)

/-- The `.pc.in` branch on a target that is not skipped. -/
def installPc {σ : Type} (env : Env σ) (installArgs : libInstallArgs) (name : String)
    (item : ArchiveEntry) (s : σ) : σ × Option Fault :=
  let pkgconfig := env.join [installArgs.pfx, installArgs.libDir, "pkgconfig"]
  match env.fs.mkdirAll pkgconfig s with
  | (s, some e) => (s, some (.ext e))
  | (s, none) =>
    let outName := replaceAll name ".pc.in" ".pc"
    match env.fs.create (env.join [pkgconfig, outName]) s with
    | (s, some e) => (s, some (.ext e))
    | (s, none) =>
      let s := writeLines env.fs (env.join [pkgconfig, outName]) (pcLines installArgs item.content) s
      match item.readErr with
      | none => (env.fs.close (env.join [pkgconfig, outName]) s, none)
      | some e => (env.fs.close (env.join [pkgconfig, outName]) s, some (.ext e))

/-- The body of the loop over the archive, for one entry. -/
def unpackEntry {σ : Type} (env : Env σ) (installArgs : libInstallArgs) (item : ArchiveEntry)
    (s : σ) : σ × Option Fault :=
  let name := trimSpaces item.name
  if hasSuffix name (env.getSharedObjectExt installArgs.os) then
    copyEntry env (env.join [installArgs.pfx, installArgs.libDir]) name item s
  else if hasSuffix name ".h" then
    copyEntry env (env.join [installArgs.pfx, installArgs.includeDir]) name item s
  else if hasSuffix name (env.getStaticLibFileName installArgs.os) then
    copyEntry env (env.join [installArgs.pfx, installArgs.libDir]) name item s
  else if hasSuffix name ".pc.in" then
    if contains installArgs.os "windows" then (s, none)
    else installPc env installArgs name item s
  else (s, none)

/-- The loop over the archive.  At the end of the entries `io.EOF` leaves the
loop; any other error of `Next` comes with a nil header, whose `Name` is
then assigned to. -/
def unpack {σ : Type} (env : Env σ) (installArgs : libInstallArgs) :
    List ArchiveEntry → Option String → σ → σ × Option Fault
  | [], none, s => (s, none)
  | [], some _, s => (s, some (.panic "invalid memory address or nil pointer dereference"))
  | item :: rest, nextErr, s =>
    match unpackEntry env installArgs item s with
    | (s, none) => unpack env installArgs rest nextErr s
    | (s, some f) => (s, some f)

/-- The body of the loop over the assets once an asset matches. -/
def installAsset {σ : Type} (env : Env σ) (installArgs : libInstallArgs) (asset : Asset)
    (s : σ) : σ × Option Fault :=
  match env.httpGet asset.browserDownloadURL with
  | .error e => (s, some (.ext e))
  | .ok body =>
    match env.gzipNewReader body with
    | .error e => (s, some (.ext e))
    | .ok archive => unpack env installArgs archive.entries archive.nextErr s

/-- The loop `for _, asset := range rel.Assets` and the error after it. -/
def installFirst {σ : Type} (env : Env σ) (installArgs : libInstallArgs) (assetName : String) :
    List Asset → σ → σ × Option Fault
  | [], s => (s, some (.err ("No release asset found matching " ++ assetName)))
  | asset :: rest, s =>
    if hasPrefix asset.name assetName && hasSuffix asset.name ".tar.gz" then
      installAsset env installArgs asset s
    else installFirst env installArgs assetName rest s

/-- The function `runLibInstall`: the filesystem it leaves and the error it returns. -/
def runLibInstall {σ : Type} (env : Env σ) (fetched : Except String (List Release))
    (installArgs : libInstallArgs) (s : σ) : σ × Option Fault :=
  match applyTriplet (convertVersion installArgs) with
  | .error f => (s, some f)
  | .ok installArgs =>
    match findRelease fetched installArgs.version with
    | .error f => (s, some f)
    | .ok rel =>
      match assetPrefix installArgs.os installArgs.arch installArgs.libc with
      | .error f => (s, some f)
      | .ok assetName => installFirst env installArgs assetName rel.assets s

/-! ## A recording environment, for concrete runs -/

/-- A filesystem call, as recorded. -/
inductive FsOp where
  | mkdirAll (path : String)
  | create (path : String)
  | write (path data : String)
  | close (path : String)
  deriving DecidableEq, Repr

/-- A filesystem on which every call succeeds and is appended to a log. -/
def recordingFS : FileSystem (List FsOp) where
  mkdirAll := fun path log => (log ++ [.mkdirAll path], none)
  create := fun path log => (log ++ [.create path], none)
  write := fun path data log => log ++ [.write path data]
  close := fun path log => log ++ [.close path]

/-- The elements of a slash-separated path after cleaning: empty elements
and `.` go, `..` takes back the element before it, is kept at the front of a
relative path and is dropped at the root.  `out` holds the elements kept so
far, last first. -/
def cleanElems (rooted : Bool) : List (List Char) → List (List Char) → List (List Char)
  | [], out => out.reverse
  | e :: rest, out =>
    if e = [] ∨ e = ['.'] then cleanElems rooted rest out
    else if e = ['.', '.'] then
      match out with
      | [] => if rooted then cleanElems rooted rest [] else cleanElems rooted rest [e]
      | top :: below =>
        if top = ['.', '.'] then cleanElems rooted rest (e :: top :: below)
        else cleanElems rooted rest below
    else cleanElems rooted rest (e :: out)

/-- Go `filepath.Clean` on a host whose separator is `/`. -/
def cleanPath (path : String) : String :=
  if path = "" then "."
  else
    let rooted := path.data.head? = some '/'
    let kept := "/".intercalate ((cleanElems rooted (splitBytes '/' path.data) []).map String.mk)
    if rooted then "/" ++ kept
    else if kept = "" then "."
    else kept

/-- Go `filepath.Join` on a host whose separator is `/`: the elements from the
first non-empty one on, put together with `/` and cleaned. -/
def joinPath (elems : List String) : String :=
  match elems.dropWhile (fun e => e = "") with
  | [] => ""
  | kept => cleanPath ("/".intercalate kept)

/-- Modelled from the spec: `getSharedObjectExt` and `getStaticLibFileName`
are not among the sources; section 4.4 names the shared-object extensions
`.so`, `.dylib` and `.dll` by target, and the static library goes by the
usual archive name of the platform.  This environment records the filesystem
calls, joins paths as `filepath.Join` does, and answers every download with
the given archive. -/
def recordingEnv (archive : Archive) : Env (List FsOp) where
  fs := recordingFS
  join := joinPath
  httpGet := fun url => .ok url
  gzipNewReader := fun _ => .ok archive
  getSharedObjectExt := fun os =>
    if os = "windows" then ".dll" else if os = "darwin" ∨ os = "macos" then ".dylib" else ".so"
  getStaticLibFileName := fun os => if os = "windows" then "extism.lib" else "libextism.a"

/-- Install arguments with the defaults of the command line on a linux host. -/
def sampleArgs : libInstallArgs where
  args := []
  pfx := "/usr/local"
  libDir := "lib"
  includeDir := "include"
  version := ""
  os := "linux"
  arch := "amd64"
  libc := ""
  triplet := ""

/-- Three-segment triplet used in the concrete runs. -/
def sampleTripletArgs : libInstallArgs :=
  { sampleArgs with triplet := "aarch64-apple-darwin", os := "linux", arch := "amd64", libc := "musl" }

/-- Catalog used in the concrete runs of the tag search. -/
def sampleCatalog : List Release :=
  [⟨"v1.0.0", 10, []⟩, ⟨"v1.2.3", 30, []⟩, ⟨"v1.2.0", 20, []⟩]

/-- Catalog with two releases tagged `latest` ahead of a versioned one. -/
def twoLatestCatalog : List Release :=
  [⟨"latest", 30, []⟩, ⟨"latest", 20, []⟩, ⟨"v1.0.0", 10, []⟩]

/-- Catalog in which two releases share their creation instant. -/
def tiedCatalog : List Release :=
  [⟨"v1.0.1", 10, []⟩, ⟨"v1.0.0", 10, []⟩]

/-- Release with a checksum file and two archives of the same platform. -/
def sampleRelease : Release :=
  ⟨"v1.2.3", 30,
    [⟨"libextism-x86_64-unknown-linux-gnu-v1.2.3.txt", "https://dl/checksums"⟩,
     ⟨"libextism-x86_64-unknown-linux-gnu-v1.2.3.tar.gz", "https://dl/first"⟩,
     ⟨"libextism-x86_64-unknown-linux-gnu-debug-v1.2.3.tar.gz", "https://dl/second"⟩]⟩

/-- Archive with a shared object, a header and a pkg-config template. -/
def sampleArchive : Archive :=
  ⟨[⟨"libextism.so", "ELF", none⟩, ⟨"extism.h", "#pragma once\n", none⟩,
    ⟨"extism.pc.in", "prefix=/old/path\nLibs: -lextism\n", none⟩], none⟩

/-- Windows archive with a library, a pkg-config template and a header. -/
def windowsArchive : Archive :=
  ⟨[⟨"extism.dll", "MZ", none⟩, ⟨"extism.pc.in", "prefix=/old/path\n", none⟩,
    ⟨"extism.h", "#pragma once\n", none⟩], none⟩

/-- Archive whose pkg-config template does not end with a newline. -/
def unterminatedArchive : Archive :=
  ⟨[⟨"extism.pc.in", "prefix=/old/path\nName: extism", none⟩], none⟩

/-- The directory the `.pc` files are written to. -/
def pkgconfigDir {σ : Type} (env : Env σ) (installArgs : libInstallArgs) : String :=
  env.join [installArgs.pfx, installArgs.libDir, "pkgconfig"]

/-- The file written for the `.pc.in` entry whose trimmed name is `name`. -/
def pcOutPath {σ : Type} (env : Env σ) (installArgs : libInstallArgs) (name : String) : String :=
  env.join [pkgconfigDir env installArgs, replaceAll name ".pc.in" ".pc"]

/-- Template entry with a `Libs:` line between two other lines. -/
def libsEntry : ArchiveEntry :=
  ⟨"extism.pc.in", "prefix=/old/path\nLibs: -lextism\nCflags: -I/include\n", none⟩

/-- Archive holding the template entry alone. -/
def libsArchive : Archive := ⟨[libsEntry], none⟩

/-- Release with one archive for windows on amd64. -/
def windowsRelease : Release :=
  ⟨"v1.2.3", 30, [⟨"libextism-x86_64-pc-windows-msvc-v1.2.3.tar.gz", "https://dl/windows"⟩]⟩

/-! ## Properties of `assetPrefix` -/

/-- C1: for every `(os, arch, libc)`, `assetPrefix` returns what the reference
of the specification returns: the architecture name (`x86_64` for `amd64`,
`aarch64` for `arm64`, the given one otherwise) inside the linux, windows or
darwin form with the documented libc defaults, and otherwise the
unsupported-platform error naming arch, os and libc.  In particular
`(linux, amd64, "")` gives `libextism-x86_64-unknown-linux-gnu`. -/
theorem assetPrefix_eq_spec (os arch libc : String) :
    assetPrefix os arch libc = assetPrefixSpec os arch libc ∧
    assetPrefix "linux" "amd64" "" = .ok "libextism-x86_64-unknown-linux-gnu" := by
  refine ⟨?_, by decide⟩
  unfold assetPrefix assetPrefixSpec
  by_cases ha1 : arch = "amd64" <;> by_cases ha2 : arch = "arm64" <;>
    by_cases ho1 : os = "linux" <;> by_cases ho2 : os = "windows" <;>
    by_cases ho3 : os = "darwin" <;> by_cases ho4 : os = "macos" <;>
    by_cases hl : libc = "" <;> simp_all

/-! ## Properties of the triplet handling -/

theorem unpackEntry_congr {σ : Type} (env : Env σ) (a b : libInstallArgs)
    (hos : a.os = b.os) (hargs : a.tolibArgs = b.tolibArgs) (item : ArchiveEntry) (s : σ) :
    unpackEntry env a item s = unpackEntry env b item s := by
  have hp : a.pfx = b.pfx := congrArg libArgs.pfx hargs
  have hl : a.libDir = b.libDir := congrArg libArgs.libDir hargs
  have hi : a.includeDir = b.includeDir := congrArg libArgs.includeDir hargs
  simp only [unpackEntry, installPc, pcLines, rewriteLine, hos, hp, hl, hi]

theorem unpack_congr {σ : Type} (env : Env σ) (a b : libInstallArgs)
    (hos : a.os = b.os) (hargs : a.tolibArgs = b.tolibArgs) (entries : List ArchiveEntry)
    (nextErr : Option String) (s : σ) :
    unpack env a entries nextErr s = unpack env b entries nextErr s := by
  induction entries generalizing s with
  | nil => cases nextErr <;> rfl
  | cons item rest ih =>
    simp only [unpack, unpackEntry_congr env a b hos hargs]
    split
    · exact ih _
    · rfl

theorem installFirst_congr {σ : Type} (env : Env σ) (a b : libInstallArgs)
    (hos : a.os = b.os) (hargs : a.tolibArgs = b.tolibArgs) (assetName : String)
    (assets : List Asset) (s : σ) :
    installFirst env a assetName assets s = installFirst env b assetName assets s := by
  induction assets with
  | nil => rfl
  | cons asset rest ih =>
    simp only [installFirst, installAsset, ih, unpack_congr env a b hos hargs]

theorem convertVersion_triplet (installArgs : libInstallArgs) :
    (convertVersion installArgs).triplet = installArgs.triplet := by
  unfold convertVersion
  split <;> rfl

/-- Whatever follows the triplet handling reads the version, the platform
fields and the layout, never the triplet string itself. -/
theorem runLibInstall_of_applyTriplet {σ : Type} (env : Env σ)
    (fetched : Except String (List Release)) (installArgs r e e' : libInstallArgs) (s : σ)
    (hr : applyTriplet (convertVersion installArgs) = .ok r)
    (he : applyTriplet (convertVersion e) = .ok e')
    (hv : r.version = e'.version) (hos : r.os = e'.os) (harch : r.arch = e'.arch)
    (hlibc : r.libc = e'.libc) (hargs : r.tolibArgs = e'.tolibArgs) :
    runLibInstall env fetched installArgs s = runLibInstall env fetched e s := by
  simp only [runLibInstall, hr, he, hv, hos, harch, hlibc]
  cases findRelease fetched e'.version with
  | error f => rfl
  | ok rel =>
    cases assetPrefix e'.os e'.arch e'.libc with
    | error f => rfl
    | ok assetName => exact installFirst_congr env r e' (by rw [hos]) hargs assetName rel.assets s

/-- C2: with a non-empty triplet string, three segments `[a, v, o]` set
`(arch, os, libc)` to `(a, o, "")` and four segments `[a, v, o, l]` set them
to `(a, o, l)`, whatever was supplied separately; the asset prefix computed
afterwards is that of the explicit fields and the whole installation runs as
it does with those fields and no triplet; every other number of segments
fails with the malformed-triplet error before anything else is done. -/
theorem triplet_overrides_fields (installArgs : libInstallArgs)
    (ht : installArgs.triplet ≠ "") :
    (∀ a v o, splitDash installArgs.triplet = [a, v, o] →
      applyTriplet installArgs = .ok { installArgs with arch := a, os := o, libc := "" } ∧
      (∀ r, applyTriplet installArgs = .ok r →
        assetPrefix r.os r.arch r.libc = assetPrefix o a "") ∧
      (∀ (σ : Type) (env : Env σ) (fetched : Except String (List Release)) (s : σ),
        runLibInstall env fetched installArgs s =
          runLibInstall env fetched
            { installArgs with triplet := "", arch := a, os := o, libc := "" } s)) ∧
    (∀ a v o l, splitDash installArgs.triplet = [a, v, o, l] →
      applyTriplet installArgs = .ok { installArgs with arch := a, os := o, libc := l } ∧
      (∀ r, applyTriplet installArgs = .ok r →
        assetPrefix r.os r.arch r.libc = assetPrefix o a l) ∧
      (∀ (σ : Type) (env : Env σ) (fetched : Except String (List Release)) (s : σ),
        runLibInstall env fetched installArgs s =
          runLibInstall env fetched
            { installArgs with triplet := "", arch := a, os := o, libc := l } s)) ∧
    ((splitDash installArgs.triplet).length ≠ 3 → (splitDash installArgs.triplet).length ≠ 4 →
      applyTriplet installArgs = .error (.err "triplet should only have 3 or 4 parts") ∧
      (∀ (σ : Type) (env : Env σ) (fetched : Except String (List Release)) (s : σ),
        runLibInstall env fetched installArgs s =
          (s, some (.err "triplet should only have 3 or 4 parts")))) := by
  refine ⟨?_, ?_, ?_⟩
  · intro a v o hsplit
    have h1 : applyTriplet installArgs =
        .ok { installArgs with arch := a, os := o, libc := "" } := by
      simp [applyTriplet, ht, hsplit]
    refine ⟨h1, ?_, ?_⟩
    · intro r hr
      rw [h1] at hr
      cases hr
      rfl
    · intro σ env fetched s
      have hc : applyTriplet (convertVersion installArgs) =
          .ok { convertVersion installArgs with arch := a, os := o, libc := "" } := by
        simp [applyTriplet, convertVersion_triplet, ht, hsplit]
      have he : applyTriplet (convertVersion
            { installArgs with triplet := "", arch := a, os := o, libc := "" }) =
          .ok (convertVersion
            { installArgs with triplet := "", arch := a, os := o, libc := "" }) := by
        simp [applyTriplet, convertVersion_triplet]
      refine runLibInstall_of_applyTriplet env fetched _ _ _ _ s hc he ?_ ?_ ?_ ?_ ?_ <;>
        (unfold convertVersion; split <;> simp_all)
  · intro a v o l hsplit
    have h1 : applyTriplet installArgs =
        .ok { installArgs with arch := a, os := o, libc := l } := by
      simp [applyTriplet, ht, hsplit]
    refine ⟨h1, ?_, ?_⟩
    · intro r hr
      rw [h1] at hr
      cases hr
      rfl
    · intro σ env fetched s
      have hc : applyTriplet (convertVersion installArgs) =
          .ok { convertVersion installArgs with arch := a, os := o, libc := l } := by
        simp [applyTriplet, convertVersion_triplet, ht, hsplit]
      have he : applyTriplet (convertVersion
            { installArgs with triplet := "", arch := a, os := o, libc := l }) =
          .ok (convertVersion
            { installArgs with triplet := "", arch := a, os := o, libc := l }) := by
        simp [applyTriplet, convertVersion_triplet]
      refine runLibInstall_of_applyTriplet env fetched _ _ _ _ s hc he ?_ ?_ ?_ ?_ ?_ <;>
        (unfold convertVersion; split <;> simp_all)
  · intro h3 h4
    have hlen : ¬ (3 ≤ (splitDash installArgs.triplet).length ∧
        (splitDash installArgs.triplet).length ≤ 4) := by omega
    refine ⟨by simp [applyTriplet, ht, hlen], ?_⟩
    intro σ env fetched s
    simp [runLibInstall, applyTriplet, convertVersion_triplet, ht, hlen]

/-- C2, at the triplet `aarch64-apple-darwin` given together with
`--os linux --arch amd64 --libc musl`. -/
theorem triplet_overrides_fields_witness :
    sampleTripletArgs.triplet ≠ "" ∧
    applyTriplet sampleTripletArgs =
      .ok { sampleTripletArgs with arch := "aarch64", os := "darwin", libc := "" } :=
  ⟨by decide,
    ((triplet_overrides_fields sampleTripletArgs (by decide)).1
      "aarch64" "apple" "darwin" (by decide)).1⟩

/-! ## Properties of `findRelease` -/

theorem findRelease_tagged (fetched : Except String (List Release)) (releases : List Release)
    (tag : String) (htag : tag ≠ "") (hget : getReleases fetched = .ok releases) :
    findRelease fetched tag = findTagged tag releases := by
  simp [findRelease, hget, htag]

theorem findTagged_first (tag : String) (releases : List Release) (i : Nat) (rel : Release)
    (hi : releases[i]? = some rel) (hrel : hasPrefix rel.tagName tag = true)
    (hbefore : ∀ (j : Nat) (other : Release), j < i → releases[j]? = some other →
      hasPrefix other.tagName tag = false) :
    findTagged tag releases = .ok rel := by
  induction releases generalizing i with
  | nil => simp at hi
  | cons head rest ih =>
    cases i with
    | zero =>
      simp only [List.getElem?_cons_zero, Option.some.injEq] at hi
      subst hi
      simp [findTagged, hrel]
    | succ k =>
      have hhead : hasPrefix head.tagName tag = false :=
        hbefore 0 head (Nat.succ_pos k) (by simp)
      simp only [findTagged, hhead, Bool.false_eq_true, if_false]
      refine ih k (by simpa using hi) ?_
      intro j other hj hother
      exact hbefore (j + 1) other (Nat.succ_lt_succ hj) (by simpa using hother)

theorem findTagged_error_iff (tag : String) (releases : List Release) :
    (∃ f, findTagged tag releases = .error f) ↔
      ∀ rel ∈ releases, hasPrefix rel.tagName tag = false := by
  induction releases with
  | nil => simp [findTagged]
  | cons head rest ih =>
    by_cases hhead : hasPrefix head.tagName tag = true
    · simp [findTagged, hhead]
    · simp only [Bool.not_eq_true] at hhead
      simp [findTagged, hhead, ih]

theorem findTagged_error (tag : String) (releases : List Release) (f : Fault)
    (h : findTagged tag releases = .error f) :
    f = .err ("unable to find release " ++ tag) := by
  induction releases with
  | nil =>
    simp only [findTagged, Except.error.injEq] at h
    exact h.symm
  | cons head rest ih =>
    by_cases hhead : hasPrefix head.tagName tag = true
    · simp [findTagged, hhead] at h
    · simp only [Bool.not_eq_true] at hhead
      simp only [findTagged, hhead, Bool.false_eq_true, if_false] at h
      exact ih h

/-- C3: with a non-empty token, over the list `getReleases` returned,
`findRelease` returns the release at the smallest index whose tag name starts
with the token; it fails exactly when no tag name starts with the token, and
the error then is `unable to find release` followed by the token. -/
theorem findRelease_first_match (fetched : Except String (List Release))
    (releases : List Release) (tag : String) (htag : tag ≠ "")
    (hget : getReleases fetched = .ok releases) :
    (∀ (i : Nat) (rel : Release), releases[i]? = some rel → hasPrefix rel.tagName tag = true →
      (∀ (j : Nat) (other : Release), j < i → releases[j]? = some other →
        hasPrefix other.tagName tag = false) →
      findRelease fetched tag = .ok rel) ∧
    ((∃ f, findRelease fetched tag = .error f) ↔
      ∀ rel ∈ releases, hasPrefix rel.tagName tag = false) ∧
    (∀ f, findRelease fetched tag = .error f → f = .err ("unable to find release " ++ tag)) := by
  rw [findRelease_tagged fetched releases tag htag hget]
  exact ⟨fun i rel hi hrel hbefore => findTagged_first tag releases i rel hi hrel hbefore,
    findTagged_error_iff tag releases, fun f h => findTagged_error tag releases f h⟩

/-- C3, at the token `v1.2` over a catalog fetched out of order: the newer
`v1.2.3` is found, not `v1.2.0`. -/
theorem findRelease_first_match_witness :
    "v1.2" ≠ "" ∧
    getReleases (.ok sampleCatalog) =
      .ok [⟨"v1.2.3", 30, []⟩, ⟨"v1.2.0", 20, []⟩, ⟨"v1.0.0", 10, []⟩] ∧
    findRelease (.ok sampleCatalog) "v1.2" = .ok ⟨"v1.2.3", 30, []⟩ :=
  ⟨by decide, by decide,
    (findRelease_first_match (.ok sampleCatalog)
      [⟨"v1.2.3", 30, []⟩, ⟨"v1.2.0", 20, []⟩, ⟨"v1.0.0", 10, []⟩] "v1.2"
      (by decide) (by decide)).1 0 ⟨"v1.2.3", 30, []⟩ (by decide) (by decide)
      (fun j other hj => absurd hj (Nat.not_lt_zero j))⟩

/-- C4, as stated, fails: when the two newest releases are both tagged
`latest`, the empty token yields the second of them, while the newest release
not tagged `latest` is the third. -/
theorem findRelease_latest_counterexample :
    getReleases (.ok twoLatestCatalog) = .ok twoLatestCatalog ∧
    findRelease (.ok twoLatestCatalog) "" = .ok ⟨"latest", 20, []⟩ ∧
    twoLatestCatalog.find? (fun rel => rel.tagName ≠ "latest") = some ⟨"v1.0.0", 10, []⟩ ∧
    findRelease (.ok twoLatestCatalog) "" ≠ .ok ⟨"v1.0.0", 10, []⟩ := by
  decide

/-- C4, amended: over the list `getReleases` returned, the empty token yields
the first release when its tag is not `latest`; when its tag is `latest` and
a second release exists, it yields that second release, which is the newest
release not tagged `latest` whenever its own tag is not `latest`. -/
theorem findRelease_empty_token (fetched : Except String (List Release))
    (releases : List Release) (hget : getReleases fetched = .ok releases) :
    (∀ first rest, releases = first :: rest → first.tagName ≠ "latest" →
      findRelease fetched "" = .ok first) ∧
    (∀ first second rest, releases = first :: second :: rest → first.tagName = "latest" →
      findRelease fetched "" = .ok second ∧
      (second.tagName ≠ "latest" →
        releases.find? (fun rel => rel.tagName ≠ "latest") = some second)) := by
  refine ⟨?_, ?_⟩
  · intro first rest hrel hfirst
    subst hrel
    simp [findRelease, hget, hfirst]
  · intro first second rest hrel hfirst
    subst hrel
    refine ⟨by simp [findRelease, hget, hfirst], ?_⟩
    intro hsecond
    simp [List.find?, hfirst, hsecond]

/-- C4 amended, at a catalog whose newest release is the rolling `latest`. -/
theorem findRelease_empty_token_witness :
    getReleases (.ok [⟨"v1.0.0", 10, []⟩, ⟨"latest", 30, []⟩, ⟨"v1.2.3", 20, []⟩]) =
      .ok [⟨"latest", 30, []⟩, ⟨"v1.2.3", 20, []⟩, ⟨"v1.0.0", 10, []⟩] ∧
    findRelease (.ok [⟨"v1.0.0", 10, []⟩, ⟨"latest", 30, []⟩, ⟨"v1.2.3", 20, []⟩]) "" =
      .ok ⟨"v1.2.3", 20, []⟩ :=
  ⟨by decide,
    ((findRelease_empty_token
      (.ok [⟨"v1.0.0", 10, []⟩, ⟨"latest", 30, []⟩, ⟨"v1.2.3", 20, []⟩])
      [⟨"latest", 30, []⟩, ⟨"v1.2.3", 20, []⟩, ⟨"v1.0.0", 10, []⟩] (by decide)).2
      ⟨"latest", 30, []⟩ ⟨"v1.2.3", 20, []⟩ [⟨"v1.0.0", 10, []⟩] rfl rfl).1⟩

/-- C10: the indexing of `findRelease` with an empty token is not always in
bounds.  On the empty catalog `releases[0]` panics, and on a catalog holding
the single release `latest` `releases[1]` panics; in neither case is a release
or an error returned. -/
theorem findRelease_empty_token_panics :
    findRelease (.ok []) "" = .error (.panic "index out of range [0] with length 0") ∧
    findRelease (.ok [⟨"latest", 30, []⟩]) "" =
      .error (.panic "index out of range [1] with length 1") := by
  decide

/-! ## Properties of `getReleases` -/

theorem sinkInto_perm (less : Release → Release → Bool) (x : Release) (done : List Release) :
    (sinkInto less x done).Perm (x :: done) := by
  induction done with
  | nil => exact List.Perm.refl _
  | cons y ys ih =>
    unfold sinkInto
    split
    · exact (List.Perm.cons y ih).trans (List.Perm.swap x y ys)
    · exact List.Perm.refl _

theorem sinkInto_sorted (x : Release) (done : List Release)
    (h : done.Pairwise (fun a b => a.createdAt ≤ b.createdAt)) :
    (sinkInto createdAfter x done).Pairwise (fun a b => a.createdAt ≤ b.createdAt) := by
  induction done with
  | nil => simp [sinkInto]
  | cons y ys ih =>
    rw [List.pairwise_cons] at h
    unfold sinkInto
    split
    next hlt =>
      rw [List.pairwise_cons]
      refine ⟨?_, ih h.2⟩
      intro z hz
      have hz2 : z ∈ x :: ys := (sinkInto_perm createdAfter x ys).subset hz
      rcases List.mem_cons.mp hz2 with rfl | hz3
      · simp only [createdAfter, decide_eq_true_eq] at hlt
        exact le_of_lt hlt
      · exact h.1 z hz3
    next hge =>
      simp only [createdAfter, decide_eq_true_eq, not_lt] at hge
      rw [List.pairwise_cons]
      refine ⟨?_, List.pairwise_cons.mpr h⟩
      intro z hz
      rcases List.mem_cons.mp hz with rfl | hz3
      · exact hge
      · exact le_trans hge (h.1 z hz3)

theorem sortInto_perm (less : Release → Release → Bool) (done todo : List Release) :
    (sortInto less done todo).Perm (done ++ todo) := by
  induction todo generalizing done with
  | nil => simp [sortInto]
  | cons x xs ih =>
    unfold sortInto
    refine (ih (sinkInto less x done)).trans ?_
    refine ((sinkInto_perm less x done).append_right xs).trans ?_
    simpa using (@List.perm_middle _ x done xs).symm

theorem sortInto_sorted (done todo : List Release)
    (h : done.Pairwise (fun a b => a.createdAt ≤ b.createdAt)) :
    (sortInto createdAfter done todo).Pairwise (fun a b => b.createdAt ≤ a.createdAt) := by
  induction todo generalizing done with
  | nil =>
    unfold sortInto
    exact List.pairwise_reverse.mpr h
  | cons x xs ih =>
    unfold sortInto
    exact ih _ (sinkInto_sorted x done h)

/-- C8, as stated, fails: two releases created at the same instant come back
next to each other, and the first is not strictly later than the second; no
order of the two would be strictly descending. -/
theorem getReleases_strict_counterexample :
    getReleases (.ok tiedCatalog) = .ok tiedCatalog ∧
    ¬ List.Chain' (fun a b : Release => b.createdAt < a.createdAt) tiedCatalog ∧
    (∀ l : List Release, l.Perm tiedCatalog →
      ¬ List.Chain' (fun a b : Release => b.createdAt < a.createdAt) l) := by
  refine ⟨by decide, by simp [tiedCatalog], ?_⟩
  intro l hperm hchain
  have hall : ∀ rel ∈ l, rel.createdAt = 10 := by
    intro rel hrel
    have hmem : rel ∈ tiedCatalog := hperm.subset hrel
    simp only [tiedCatalog, List.mem_cons, List.mem_singleton, List.not_mem_nil, or_false] at hmem
    rcases hmem with rfl | rfl <;> rfl
  have hlen : l.length = 2 := hperm.length_eq
  match l, hlen, hall, hchain with
  | [x, y], _, hall, hchain =>
    have hx := hall x (by simp)
    have hy := hall y (by simp)
    simp only [List.chain'_cons, List.chain'_singleton, and_true] at hchain
    omega

/-- C8, amended: on success `getReleases` returns a permutation of the
fetched list in descending order of creation instant: no release is older
than any release after it, in particular than the one that follows it; the
order is strict when no two fetched releases share an instant. -/
theorem getReleases_sorted_perm (releases : List Release) :
    ∃ sorted, getReleases (.ok releases) = .ok sorted ∧
      sorted.Perm releases ∧
      sorted.Pairwise (fun a b => b.createdAt ≤ a.createdAt) ∧
      List.Chain' (fun a b : Release => b.createdAt ≤ a.createdAt) sorted ∧
      ((releases.map Release.createdAt).Nodup →
        List.Chain' (fun a b : Release => b.createdAt < a.createdAt) sorted) := by
  have hperm : (sortSlice createdAfter releases).Perm releases := by
    simpa [sortSlice] using sortInto_perm createdAfter [] releases
  have hsorted : (sortSlice createdAfter releases).Pairwise
      (fun a b => b.createdAt ≤ a.createdAt) :=
    sortInto_sorted [] releases List.Pairwise.nil
  refine ⟨sortSlice createdAfter releases, rfl, hperm, hsorted, hsorted.chain', ?_⟩
  intro hnodup
  have hne : (sortSlice createdAfter releases).Pairwise
      (fun a b => a.createdAt ≠ b.createdAt) := by
    have h1 : ((sortSlice createdAfter releases).map Release.createdAt).Nodup :=
      (hperm.map Release.createdAt).nodup_iff.mpr hnodup
    exact (List.pairwise_map.mp h1)
  refine List.Pairwise.chain' ?_
  refine (hsorted.and hne).imp ?_
  intro a b hab
  exact lt_of_le_of_ne hab.1 (Ne.symm hab.2)

/-- C8 amended, at a catalog fetched out of order with distinct instants. -/
theorem getReleases_sorted_perm_witness :
    (sampleCatalog.map Release.createdAt).Nodup ∧
    ∃ sorted, getReleases (.ok sampleCatalog) = .ok sorted ∧
      sorted.Perm sampleCatalog ∧
      sorted.Pairwise (fun a b => b.createdAt ≤ a.createdAt) ∧
      List.Chain' (fun a b : Release => b.createdAt ≤ a.createdAt) sorted ∧
      ((sampleCatalog.map Release.createdAt).Nodup →
        List.Chain' (fun a b : Release => b.createdAt < a.createdAt) sorted) :=
  ⟨by decide, getReleases_sorted_perm sampleCatalog⟩

/-! ## Properties of the asset selection -/

theorem copyEntry_no_err {σ : Type} (env : Env σ) (dir name : String) (item : ArchiveEntry)
    (s : σ) (msg : String) : (copyEntry env dir name item s).2 ≠ some (.err msg) := by
  unfold copyEntry
  split
  · simp
  · split <;> simp

theorem installPc_no_err {σ : Type} (env : Env σ) (installArgs : libInstallArgs) (name : String)
    (item : ArchiveEntry) (s : σ) (msg : String) :
    (installPc env installArgs name item s).2 ≠ some (.err msg) := by
  unfold installPc
  dsimp only
  repeat' split
  all_goals simp

theorem unpackEntry_no_err {σ : Type} (env : Env σ) (installArgs : libInstallArgs)
    (item : ArchiveEntry) (s : σ) (msg : String) :
    (unpackEntry env installArgs item s).2 ≠ some (.err msg) := by
  unfold unpackEntry
  simp only
  split
  · exact copyEntry_no_err _ _ _ _ _ _
  · split
    · exact copyEntry_no_err _ _ _ _ _ _
    · split
      · exact copyEntry_no_err _ _ _ _ _ _
      · split
        · split
          · simp
          · exact installPc_no_err _ _ _ _ _ _
        · simp

theorem unpack_no_err {σ : Type} (env : Env σ) (installArgs : libInstallArgs)
    (entries : List ArchiveEntry) (nextErr : Option String) (s : σ) (msg : String) :
    (unpack env installArgs entries nextErr s).2 ≠ some (.err msg) := by
  induction entries generalizing s with
  | nil => cases nextErr <;> simp [unpack]
  | cons item rest ih =>
    unfold unpack
    split
    · exact ih _
    · next s2 f hstep =>
      have h := unpackEntry_no_err env installArgs item s msg
      rw [hstep] at h
      exact h

/-- Once an asset matches, no error made in `lib.go` comes back: what can go
wrong from there on is a failing library call or a panic. -/
theorem installAsset_no_err {σ : Type} (env : Env σ) (installArgs : libInstallArgs)
    (asset : Asset) (s : σ) (msg : String) :
    (installAsset env installArgs asset s).2 ≠ some (.err msg) := by
  unfold installAsset
  split
  · simp
  · split
    · simp
    · exact unpack_no_err _ _ _ _ _ _

theorem installFirst_first {σ : Type} (env : Env σ) (installArgs : libInstallArgs)
    (assetName : String) (assets : List Asset) (s : σ) (i : Nat) (asset : Asset)
    (hi : assets[i]? = some asset)
    (hasset : hasPrefix asset.name assetName = true ∧ hasSuffix asset.name ".tar.gz" = true)
    (hbefore : ∀ (j : Nat) (other : Asset), j < i → assets[j]? = some other →
      ¬ (hasPrefix other.name assetName = true ∧ hasSuffix other.name ".tar.gz" = true)) :
    installFirst env installArgs assetName assets s = installAsset env installArgs asset s := by
  induction assets generalizing i with
  | nil => simp at hi
  | cons head rest ih =>
    cases i with
    | zero =>
      simp only [List.getElem?_cons_zero, Option.some.injEq] at hi
      subst hi
      simp [installFirst, hasset.1, hasset.2]
    | succ k =>
      have hhead := hbefore 0 head (Nat.succ_pos k) (by simp)
      have hcond : (hasPrefix head.name assetName && hasSuffix head.name ".tar.gz") = false := by
        simpa using hhead
      simp only [installFirst, hcond, Bool.false_eq_true, if_false]
      refine ih k (by simpa using hi) ?_
      intro j other hj hother
      exact hbefore (j + 1) other (Nat.succ_lt_succ hj) (by simpa using hother)

theorem installFirst_not_found_iff {σ : Type} (env : Env σ) (installArgs : libInstallArgs)
    (assetName : String) (assets : List Asset) (s : σ) :
    (installFirst env installArgs assetName assets s).2 =
        some (.err ("No release asset found matching " ++ assetName)) ↔
      ∀ asset ∈ assets,
        ¬ (hasPrefix asset.name assetName = true ∧ hasSuffix asset.name ".tar.gz" = true) := by
  induction assets with
  | nil => simp [installFirst]
  | cons head rest ih =>
    by_cases hhead : hasPrefix head.name assetName = true ∧ hasSuffix head.name ".tar.gz" = true
    · have hno := installAsset_no_err env installArgs head s
        ("No release asset found matching " ++ assetName)
      simp [installFirst, hhead.1, hhead.2, hno]
    · have hcond : (hasPrefix head.name assetName && hasSuffix head.name ".tar.gz") = false := by
        simpa using hhead
      simp only [installFirst, hcond, Bool.false_eq_true, if_false, ih, List.mem_cons,
        forall_eq_or_imp]
      exact ⟨fun h => ⟨hhead, h⟩, fun h => h.2⟩

/-- C5: once the arguments are resolved, the release found and the prefix `p`
computed, `runLibInstall` installs the asset at the smallest index whose name
starts with `p` and ends with `.tar.gz`, and does with it what it does for
that asset alone, whatever is listed after it; it fails with
`No release asset found matching ` followed by `p` exactly when no asset of
the release has both that start and that ending. -/
theorem runLibInstall_first_asset {σ : Type} (env : Env σ)
    (fetched : Except String (List Release)) (installArgs resolved : libInstallArgs)
    (rel : Release) (p : String) (s : σ)
    (hargs : applyTriplet (convertVersion installArgs) = .ok resolved)
    (hrel : findRelease fetched resolved.version = .ok rel)
    (hp : assetPrefix resolved.os resolved.arch resolved.libc = .ok p) :
    (∀ (i : Nat) (asset : Asset), rel.assets[i]? = some asset →
      hasPrefix asset.name p = true ∧ hasSuffix asset.name ".tar.gz" = true →
      (∀ (j : Nat) (other : Asset), j < i → rel.assets[j]? = some other →
        ¬ (hasPrefix other.name p = true ∧ hasSuffix other.name ".tar.gz" = true)) →
      runLibInstall env fetched installArgs s = installAsset env resolved asset s) ∧
    ((runLibInstall env fetched installArgs s).2 =
        some (.err ("No release asset found matching " ++ p)) ↔
      ∀ asset ∈ rel.assets,
        ¬ (hasPrefix asset.name p = true ∧ hasSuffix asset.name ".tar.gz" = true)) := by
  have hrun : runLibInstall env fetched installArgs s =
      installFirst env resolved p rel.assets s := by
    simp [runLibInstall, hargs, hrel, hp]
  rw [hrun]
  exact ⟨fun i asset hi hasset hbefore =>
      installFirst_first env resolved p rel.assets s i asset hi hasset hbefore,
    installFirst_not_found_iff env resolved p rel.assets s⟩

/-- C5, at a release listing two matching archives after a file that has the
start but not the ending: the first archive is the one installed. -/
theorem runLibInstall_first_asset_witness :
    applyTriplet (convertVersion sampleArgs) = .ok sampleArgs ∧
    findRelease (.ok [sampleRelease]) sampleArgs.version = .ok sampleRelease ∧
    assetPrefix sampleArgs.os sampleArgs.arch sampleArgs.libc =
      .ok "libextism-x86_64-unknown-linux-gnu" ∧
    runLibInstall (recordingEnv sampleArchive) (.ok [sampleRelease]) sampleArgs [] =
      installAsset (recordingEnv sampleArchive) sampleArgs
        ⟨"libextism-x86_64-unknown-linux-gnu-v1.2.3.tar.gz", "https://dl/first"⟩ [] :=
  ⟨by decide, by decide, by decide,
    (runLibInstall_first_asset (recordingEnv sampleArchive) (.ok [sampleRelease]) sampleArgs
      sampleArgs sampleRelease "libextism-x86_64-unknown-linux-gnu" []
      (by decide) (by decide) (by decide)).1 1
      ⟨"libextism-x86_64-unknown-linux-gnu-v1.2.3.tar.gz", "https://dl/first"⟩
      (by decide) (by decide)
      (fun j other hj hother => by
        have hj0 : j = 0 := by omega
        subst hj0
        simp only [sampleRelease, List.getElem?_cons_zero, Option.some.injEq] at hother
        subst hother
        decide)⟩

/-! ## Properties of the archive loop on a windows target -/

theorem hasSuffix_iff (s suf : String) : hasSuffix s suf = true ↔ suf.data <:+ s.data := by
  simp [hasSuffix]

/-- Two endings of one name: one of them is an ending of the other. -/
theorem hasSuffix_both (name a b : String) (ha : hasSuffix name a = true)
    (hb : hasSuffix name b = true) : hasSuffix b a = true ∨ hasSuffix a b = true := by
  rw [hasSuffix_iff] at ha hb
  rcases List.suffix_or_suffix_of_suffix ha hb with h | h
  · exact Or.inl ((hasSuffix_iff b a).mpr h)
  · exact Or.inr ((hasSuffix_iff a b).mpr h)

theorem hasSuffix_exclusive (name a b : String) (hab : hasSuffix b a = false)
    (hba : hasSuffix a b = false) (hb : hasSuffix name b = true) :
    hasSuffix name a = false := by
  cases ha : hasSuffix name a with
  | false => rfl
  | true =>
    rcases hasSuffix_both name a b ha hb with h | h
    · rw [hab] at h
      exact absurd h (by decide)
    · rw [hba] at h
      exact absurd h (by decide)

theorem unpackEntry_windows_pc {σ : Type} (env : Env σ) (installArgs : libInstallArgs)
    (hwin : contains installArgs.os "windows" = true)
    (hso : hasSuffix ".pc.in" (env.getSharedObjectExt installArgs.os) = false ∧
      hasSuffix (env.getSharedObjectExt installArgs.os) ".pc.in" = false)
    (hst : hasSuffix ".pc.in" (env.getStaticLibFileName installArgs.os) = false ∧
      hasSuffix (env.getStaticLibFileName installArgs.os) ".pc.in" = false)
    (item : ArchiveEntry) (hpc : hasSuffix (trimSpaces item.name) ".pc.in" = true) (s : σ) :
    unpackEntry env installArgs item s = (s, none) := by
  have h1 := hasSuffix_exclusive (trimSpaces item.name) _ ".pc.in" hso.1 hso.2 hpc
  have h2 := hasSuffix_exclusive (trimSpaces item.name) ".h" ".pc.in" (by decide) (by decide) hpc
  have h3 := hasSuffix_exclusive (trimSpaces item.name) _ ".pc.in" hst.1 hst.2 hpc
  simp [unpackEntry, h1, h2, h3, hpc, hwin]

/-- C9: on a target os containing `windows` (the shared-object extension and
the static-library name of that target being unrelated to the ending
`.pc.in`), every entry whose trimmed name ends in `.pc.in` is passed over:
no filesystem call is made for it, so neither the pkgconfig directory nor a
file in it comes from it, and the loop leaves the filesystem and returns what
it leaves and returns on the archive without those entries. -/
theorem unpack_windows_skips_pc {σ : Type} (env : Env σ) (installArgs : libInstallArgs)
    (hwin : contains installArgs.os "windows" = true)
    (hso : hasSuffix ".pc.in" (env.getSharedObjectExt installArgs.os) = false ∧
      hasSuffix (env.getSharedObjectExt installArgs.os) ".pc.in" = false)
    (hst : hasSuffix ".pc.in" (env.getStaticLibFileName installArgs.os) = false ∧
      hasSuffix (env.getStaticLibFileName installArgs.os) ".pc.in" = false)
    (entries : List ArchiveEntry) (nextErr : Option String) (s : σ) :
    (∀ item ∈ entries, hasSuffix (trimSpaces item.name) ".pc.in" = true →
      ∀ s0 : σ, unpackEntry env installArgs item s0 = (s0, none)) ∧
    unpack env installArgs entries nextErr s =
      unpack env installArgs
        (entries.filter (fun item => !hasSuffix (trimSpaces item.name) ".pc.in")) nextErr s := by
  refine ⟨fun item _ hpc s0 =>
    unpackEntry_windows_pc env installArgs hwin hso hst item hpc s0, ?_⟩
  induction entries generalizing s with
  | nil => rfl
  | cons item rest ih =>
    cases hpc : hasSuffix (trimSpaces item.name) ".pc.in" with
    | true =>
      have hstep := unpackEntry_windows_pc env installArgs hwin hso hst item hpc s
      simp only [List.filter, hpc, Bool.not_true]
      rw [← ih s]
      simp only [unpack, hstep]
    | false =>
      simp only [List.filter, hpc, Bool.not_false]
      unfold unpack
      split
      · exact ih _
      · rfl

/-- C9, at a windows archive holding a template between a library and a
header: the two files are written, nothing is done for the template. -/
theorem unpack_windows_skips_pc_witness :
    contains "windows" "windows" = true ∧
    unpack (recordingEnv windowsArchive) { sampleArgs with os := "windows", pfx := "." }
        windowsArchive.entries none [] =
      ([.mkdirAll "lib", .create "lib/extism.dll", .write "lib/extism.dll" "MZ",
        .close "lib/extism.dll", .mkdirAll "include", .create "include/extism.h",
        .write "include/extism.h" "#pragma once\n", .close "include/extism.h"], none) :=
  ⟨by decide,
    ((unpack_windows_skips_pc (recordingEnv windowsArchive)
      { sampleArgs with os := "windows", pfx := "." } (by decide) (by decide) (by decide)
      windowsArchive.entries none []).2).trans (by decide)⟩

/-! ## Properties of the pkg-config rewrite -/

theorem readLines_append_newline (cur x rest : List Char) :
    readLines cur (x ++ '\n' :: rest) = readLines cur (x ++ ['\n']) ++ readLines [] rest := by
  induction x generalizing cur with
  | nil => simp [readLines]
  | cons c cs ih =>
    by_cases hc : c = '\n'
    · simp [readLines, hc, ih]
    · simp [readLines, hc, ih]

theorem readLines_line (cur body : List Char) (h : '\n' ∉ body) :
    readLines cur (body ++ ['\n']) = [cur ++ body ++ ['\n']] := by
  induction body generalizing cur with
  | nil => simp [readLines]
  | cons c cs ih =>
    have hc : c ≠ '\n' := fun hc => h (by simp [hc])
    have hcs : '\n' ∉ cs := fun hcs => h (List.mem_cons_of_mem c hcs)
    simp [readLines, hc, ih _ hcs]

theorem readLines_unterminated (cur tail : List Char) (h : '\n' ∉ tail) :
    readLines cur tail = [] := by
  induction tail generalizing cur with
  | nil => rfl
  | cons c cs ih =>
    have hc : c ≠ '\n' := fun hc => h (by simp [hc])
    have hcs : '\n' ∉ cs := fun hcs => h (List.mem_cons_of_mem c hcs)
    simp [readLines, hc, ih _ hcs]

/-- After an empty or newline-terminated stretch the reader starts a fresh line. -/
theorem readLines_append (before rest : List Char)
    (hbefore : before = [] ∨ ['\n'] <:+ before) :
    readLines [] (before ++ rest) = readLines [] before ++ readLines [] rest := by
  rcases hbefore with rfl | ⟨x, rfl⟩
  · simp [readLines]
  · rw [List.append_assoc, List.singleton_append, readLines_append_newline]

theorem countFrom_head_le (old l : List Char) :
    (if old.isPrefixOf l then 1 else 0) ≤ countFrom old l := by
  cases l with
  | nil => simp [countFrom]
  | cons c cs => simp [countFrom]

theorem countFrom_suffix_le (old xs rest : List Char) :
    countFrom old rest ≤ countFrom old (xs ++ rest) := by
  induction xs with
  | nil => simp
  | cons x xs ih =>
    rw [List.cons_append]
    simp only [countFrom]
    omega

theorem countFrom_occurrence (old before after : List Char) :
    1 ≤ countFrom old (before ++ (old ++ after)) := by
  have h : old.isPrefixOf (old ++ after) = true :=
    List.isPrefixOf_iff_prefix.mpr (List.prefix_append old after)
  have h1 := countFrom_head_le old (old ++ after)
  rw [h] at h1
  exact le_trans h1 (countFrom_suffix_le old before (old ++ after))

theorem replaceFrom_skip (old new xs rest : List Char) :
    replaceFrom old new xs.length (xs ++ rest) = replaceFrom old new 0 rest := by
  induction xs with
  | nil => simp
  | cons x xs ih => simpa [replaceFrom] using ih

theorem replaceFrom_absent (old new l : List Char)
    (h : countFrom old l = 0) : replaceFrom old new 0 l = l := by
  induction l with
  | nil => rfl
  | cons c cs ih =>
    simp only [countFrom] at h
    have hhead : old.isPrefixOf (c :: cs) = false := by
      cases hp : old.isPrefixOf (c :: cs) with
      | false => rfl
      | true => simp [hp] at h
    have htail : countFrom old cs = 0 := by omega
    simp [replaceFrom, hhead, ih htail]

/-- A single occurrence is replaced in place and nothing else changes. -/
theorem replaceFrom_once (old new before after : List Char) (hold : old ≠ [])
    (h : countFrom old (before ++ (old ++ after)) = 1) :
    replaceFrom old new 0 (before ++ (old ++ after)) = before ++ (new ++ after) := by
  induction before with
  | nil =>
    cases old with
    | nil => exact absurd rfl hold
    | cons o os =>
      have hp : (o :: os).isPrefixOf (o :: (os ++ after)) = true :=
        List.isPrefixOf_iff_prefix.mpr (List.prefix_append (o :: os) after)
      rw [List.nil_append, List.cons_append] at h ⊢
      simp only [countFrom, hp, if_true] at h
      have h0 : countFrom (o :: os) (os ++ after) = 0 := by omega
      have h1 : countFrom (o :: os) after = 0 :=
        Nat.le_zero.mp (h0 ▸ countFrom_suffix_le (o :: os) os after)
      simp only [replaceFrom, hp, if_true, List.length_cons, Nat.add_sub_cancel,
        replaceFrom_skip, replaceFrom_absent _ _ _ h1, List.nil_append]
  | cons b bs ih =>
    have hocc := countFrom_occurrence old bs after
    rw [List.cons_append] at h ⊢
    simp only [countFrom] at h
    have hhead : old.isPrefixOf (b :: (bs ++ (old ++ after))) = false := by
      cases hp : old.isPrefixOf (b :: (bs ++ (old ++ after))) with
      | false => rfl
      | true =>
        simp only [hp, if_true] at h
        omega
    have htail : countFrom old (bs ++ (old ++ after)) = 1 := by
      simp only [hhead, Bool.false_eq_true, if_false] at h
      omega
    simp [replaceFrom, hhead, ih htail]

theorem replaceAll_once (line old new before after : String) (hold : old ≠ "")
    (hline : line = before ++ old ++ after) (h : occurrences line old = 1) :
    replaceAll line old new = before ++ new ++ after := by
  subst hline
  apply String.ext
  have hold2 : old.data ≠ [] := fun hd => hold (String.ext hd)
  simp only [occurrences, String.data_append, List.append_assoc] at h
  simp only [replaceAll, String.data_append, List.append_assoc]
  exact replaceFrom_once old.data new.data before.data after.data hold2 h

theorem not_config_prefix_of_libs (line : String) (h : hasPrefix line "Libs:" = true) :
    hasPrefix line "prefix=" = false := by
  unfold hasPrefix at *
  have h1 : "Libs:".data = ['L', 'i', 'b', 's', ':'] := rfl
  have h2 : "prefix=".data = ['p', 'r', 'e', 'f', 'i', 'x', '='] := rfl
  rw [h1] at h
  rw [h2]
  cases hl : line.data with
  | nil => rfl
  | cons c cs =>
    rw [hl] at h
    simp only [List.isPrefixOf, Bool.and_eq_true, beq_iff_eq] at h
    rw [← h.1]
    simp [List.isPrefixOf]

theorem pcLines_around (installArgs : libInstallArgs) (before body after : String)
    (hbefore : before = "" ∨ hasSuffix before "\n" = true) (hbody : '\n' ∉ body.data) :
    pcLines installArgs (before ++ (body ++ "\n") ++ after) =
      pcLines installArgs before ++ [rewriteLine installArgs (body ++ "\n")] ++
        pcLines installArgs after := by
  have hb : before.data = [] ∨ ['\n'] <:+ before.data := by
    rcases hbefore with rfl | h
    · exact Or.inl rfl
    · exact Or.inr ((hasSuffix_iff before "\n").mp h)
  have hnl : "\n".data = ['\n'] := rfl
  have hline : readLines [] (body.data ++ '\n' :: after.data) =
      (body.data ++ ['\n']) :: readLines [] after.data := by
    rw [readLines_append_newline, readLines_line [] body.data hbody]
    simp
  have hstr : (⟨body.data ++ ['\n']⟩ : String) = body ++ "\n" := by
    apply String.ext
    simp [String.data_append, hnl]
  simp only [pcLines, String.data_append, hnl, List.append_assoc, List.singleton_append,
    readLines_append before.data _ hb, hline, List.map_append, List.map_cons, hstr]

/-- The lines written for a template around a line ending in its only
newline, beginning with `Libs:` and holding `Libs: ` exactly once. -/
theorem pcLines_libs_line (installArgs : libInstallArgs) (before body after : String)
    (hbefore : before = "" ∨ hasSuffix before "\n" = true) (hbody : '\n' ∉ body.data)
    (hlibs : hasPrefix (body ++ "\n") "Libs:" = true)
    (honce : occurrences (body ++ "\n") "Libs: " = 1) :
    (installArgs.os = "darwin" → ∀ pre post : String, body ++ "\n" = pre ++ "Libs: " ++ post →
      pcLines installArgs (before ++ (body ++ "\n") ++ after) =
        pcLines installArgs before ++ [pre ++ "Libs: -framework Security " ++ post] ++
          pcLines installArgs after) ∧
    (installArgs.os ≠ "darwin" →
      pcLines installArgs (before ++ (body ++ "\n") ++ after) =
        pcLines installArgs before ++ [body ++ "\n"] ++ pcLines installArgs after) := by
  have hnot := not_config_prefix_of_libs (body ++ "\n") hlibs
  refine ⟨?_, ?_⟩
  · intro hos pre post hsplit
    rw [pcLines_around installArgs before body after hbefore hbody]
    have hrw : rewriteLine installArgs (body ++ "\n") =
        pre ++ "Libs: -framework Security " ++ post := by
      simp only [rewriteLine, hnot, Bool.false_eq_true, if_false, hos, hlibs, and_self, if_true]
      exact replaceAll_once _ _ _ pre post (by decide) hsplit honce
    rw [hrw]
  · intro hos
    rw [pcLines_around installArgs before body after hbefore hbody]
    have hrw : rewriteLine installArgs (body ++ "\n") = body ++ "\n" := by
      simp [rewriteLine, hnot, hos]
    rw [hrw]

theorem writeLines_append {σ : Type} (fs : FileSystem σ) (path : String)
    (first second : List String) (s : σ) :
    writeLines fs path (first ++ second) s =
      writeLines fs path second (writeLines fs path first s) := by
  induction first generalizing s with
  | nil => rfl
  | cons line rest ih =>
    rw [List.cons_append]
    simp only [writeLines]
    exact ih _

/-- What the loop body does with a `.pc.in` entry on a target that is not
skipped, once the directory is made and the file created: every line of
`pcLines` is written to the file, which is then closed. -/
theorem unpackEntry_pc {σ : Type} (env : Env σ) (installArgs : libInstallArgs)
    (item : ArchiveEntry) (s s1 s2 : σ)
    (hpc : hasSuffix (trimSpaces item.name) ".pc.in" = true)
    (hso : hasSuffix ".pc.in" (env.getSharedObjectExt installArgs.os) = false ∧
      hasSuffix (env.getSharedObjectExt installArgs.os) ".pc.in" = false)
    (hst : hasSuffix ".pc.in" (env.getStaticLibFileName installArgs.os) = false ∧
      hasSuffix (env.getStaticLibFileName installArgs.os) ".pc.in" = false)
    (hwin : contains installArgs.os "windows" = false)
    (hmk : env.fs.mkdirAll (pkgconfigDir env installArgs) s = (s1, none))
    (hcr : env.fs.create (pcOutPath env installArgs (trimSpaces item.name)) s1 = (s2, none)) :
    unpackEntry env installArgs item s =
      (env.fs.close (pcOutPath env installArgs (trimSpaces item.name))
        (writeLines env.fs (pcOutPath env installArgs (trimSpaces item.name))
          (pcLines installArgs item.content) s2),
        item.readErr.map Fault.ext) := by
  have h1 := hasSuffix_exclusive (trimSpaces item.name) _ ".pc.in" hso.1 hso.2 hpc
  have h2 := hasSuffix_exclusive (trimSpaces item.name) ".h" ".pc.in" (by decide) (by decide) hpc
  have h3 := hasSuffix_exclusive (trimSpaces item.name) _ ".pc.in" hst.1 hst.2 hpc
  unfold pcOutPath pkgconfigDir at *
  simp only [unpackEntry, h1, h2, h3, hpc, hwin, Bool.false_eq_true, if_false, if_true,
    installPc, hmk, hcr]
  cases item.readErr <;> rfl

/-- C7, as stated, fails: on the target os `windows`, which is not `darwin`,
the line `Libs: -lextism` of a `.pc.in` entry is not written unchanged, it is
not written at all: the loop body and the whole installation make no
filesystem call. -/
theorem libs_line_windows_counterexample :
    hasPrefix "Libs: -lextism\n" "Libs:" = true ∧
    occurrences "Libs: -lextism\n" "Libs: " = 1 ∧
    ({ sampleArgs with os := "windows", pfx := "." } : libInstallArgs).os ≠ "darwin" ∧
    unpackEntry (recordingEnv libsArchive) { sampleArgs with os := "windows", pfx := "." }
        libsEntry [] = ([], none) ∧
    runLibInstall (recordingEnv libsArchive) (.ok [windowsRelease])
        { sampleArgs with os := "windows", pfx := "." } [] = ([], none) := by
  decide

/-- C7, amended: on a target os that does not contain `windows`, for a
`.pc.in` entry whose directory is made and whose file is created, a line of
the template ending in its only newline, beginning with `Libs:` and holding
`Libs: ` exactly once is written to the `.pc` file, between the lines before
it and the lines after it, with `Libs: ` replaced by
`Libs: -framework Security ` when the target os is `darwin`, and unchanged
when the target os is neither `darwin` nor `macos`. -/
theorem unpackEntry_libs_line {σ : Type} (env : Env σ) (installArgs : libInstallArgs)
    (item : ArchiveEntry) (before body after : String) (s s1 s2 : σ)
    (hpc : hasSuffix (trimSpaces item.name) ".pc.in" = true)
    (hso : hasSuffix ".pc.in" (env.getSharedObjectExt installArgs.os) = false ∧
      hasSuffix (env.getSharedObjectExt installArgs.os) ".pc.in" = false)
    (hst : hasSuffix ".pc.in" (env.getStaticLibFileName installArgs.os) = false ∧
      hasSuffix (env.getStaticLibFileName installArgs.os) ".pc.in" = false)
    (hwin : contains installArgs.os "windows" = false)
    (hmk : env.fs.mkdirAll (pkgconfigDir env installArgs) s = (s1, none))
    (hcr : env.fs.create (pcOutPath env installArgs (trimSpaces item.name)) s1 = (s2, none))
    (hcontent : item.content = before ++ (body ++ "\n") ++ after)
    (hbefore : before = "" ∨ hasSuffix before "\n" = true) (hbody : '\n' ∉ body.data)
    (hlibs : hasPrefix (body ++ "\n") "Libs:" = true)
    (honce : occurrences (body ++ "\n") "Libs: " = 1) :
    (installArgs.os = "darwin" → ∀ pre post : String, body ++ "\n" = pre ++ "Libs: " ++ post →
      unpackEntry env installArgs item s =
        (env.fs.close (pcOutPath env installArgs (trimSpaces item.name))
          (writeLines env.fs (pcOutPath env installArgs (trimSpaces item.name))
            (pcLines installArgs after)
            (env.fs.write (pcOutPath env installArgs (trimSpaces item.name))
              (pre ++ "Libs: -framework Security " ++ post)
              (writeLines env.fs (pcOutPath env installArgs (trimSpaces item.name))
                (pcLines installArgs before) s2))),
          item.readErr.map Fault.ext)) ∧
    (installArgs.os ≠ "darwin" → installArgs.os ≠ "macos" →
      unpackEntry env installArgs item s =
        (env.fs.close (pcOutPath env installArgs (trimSpaces item.name))
          (writeLines env.fs (pcOutPath env installArgs (trimSpaces item.name))
            (pcLines installArgs after)
            (env.fs.write (pcOutPath env installArgs (trimSpaces item.name))
              (body ++ "\n")
              (writeLines env.fs (pcOutPath env installArgs (trimSpaces item.name))
                (pcLines installArgs before) s2))),
          item.readErr.map Fault.ext)) := by
  have hrun := unpackEntry_pc env installArgs item s s1 s2 hpc hso hst hwin hmk hcr
  have hlines := pcLines_libs_line installArgs before body after hbefore hbody hlibs honce
  rw [hcontent] at hrun
  refine ⟨?_, ?_⟩
  · intro hos pre post hsplit
    rw [hrun, hlines.1 hos pre post hsplit, writeLines_append, writeLines_append]
    rfl
  · intro hos _
    rw [hrun, hlines.2 hos, writeLines_append, writeLines_append]
    rfl

/-- C7 amended, at the line `Libs: -lextism` between a `prefix=` line and a
`Cflags:` line, on darwin: the file receives the three lines, the second one
with the framework flag. -/
theorem unpackEntry_libs_line_witness :
    contains "darwin" "windows" = false ∧
    hasPrefix ("Libs: -lextism" ++ "\n") "Libs:" = true ∧
    occurrences ("Libs: -lextism" ++ "\n") "Libs: " = 1 ∧
    unpackEntry (recordingEnv libsArchive) { sampleArgs with os := "darwin" } libsEntry [] =
      ([.mkdirAll "/usr/local/lib/pkgconfig", .create "/usr/local/lib/pkgconfig/extism.pc",
        .write "/usr/local/lib/pkgconfig/extism.pc" "prefix=/usr/local\n",
        .write "/usr/local/lib/pkgconfig/extism.pc" "Libs: -framework Security -lextism\n",
        .write "/usr/local/lib/pkgconfig/extism.pc" "Cflags: -I/include\n",
        .close "/usr/local/lib/pkgconfig/extism.pc"], none) :=
  ⟨by decide, by decide, by decide,
    ((unpackEntry_libs_line (recordingEnv libsArchive) { sampleArgs with os := "darwin" }
      libsEntry "prefix=/old/path\n" "Libs: -lextism" "Cflags: -I/include\n" []
      [.mkdirAll "/usr/local/lib/pkgconfig"]
      [.mkdirAll "/usr/local/lib/pkgconfig", .create "/usr/local/lib/pkgconfig/extism.pc"]
      (by decide) (by decide) (by decide) (by decide) (by decide) (by decide) (by decide)
      (Or.inr (by decide)) (by decide) (by decide) (by decide)).1 rfl
      "" "-lextism\n" (by decide)).trans (by decide)⟩

/-- What the loop does with a template whose last line has no newline: the
bytes after the last newline are read and never written. -/
theorem pcLines_unterminated (installArgs : libInstallArgs) (before tail : String)
    (hbefore : before = "" ∨ hasSuffix before "\n" = true) (htail : '\n' ∉ tail.data) :
    pcLines installArgs (before ++ tail) = pcLines installArgs before := by
  have hb : before.data = [] ∨ ['\n'] <:+ before.data := by
    rcases hbefore with rfl | h
    · exact Or.inl rfl
    · exact Or.inr ((hasSuffix_iff before "\n").mp h)
  simp [pcLines, String.data_append, readLines_append before.data _ hb,
    readLines_unterminated [] tail.data htail]

/-- C6: on linux the template `prefix=/old/path\nName: extism`, whose last
line has no newline, is written as `prefix=/usr/local\n` alone: the line
`Name: extism` is not passed through, it is lost. -/
theorem pc_last_line_lost :
    pcWritten sampleArgs "prefix=/old/path\nName: extism" = "prefix=/usr/local\n" ∧
    pcWritten sampleArgs "prefix=/old/path\nName: extism" ≠
      "prefix=/usr/local\nName: extism" ∧
    unpack (recordingEnv unterminatedArchive) sampleArgs unterminatedArchive.entries none [] =
      ([.mkdirAll "/usr/local/lib/pkgconfig", .create "/usr/local/lib/pkgconfig/extism.pc",
        .write "/usr/local/lib/pkgconfig/extism.pc" "prefix=/usr/local\n",
        .close "/usr/local/lib/pkgconfig/extism.pc"], none) := by
  decide

end Cli
